import Mathlib

/-!
Verification of the SDL (GraphQL Schema Definition Language) line parser in
src/libs/graphql-schema-viewer/src/components/GraphQLSchemaViewer/GraphQLSchemaViewer.tsx.

The parser is embedded shallowly: a source line is a list of characters,
the schema text splits on newline characters, and the two scanning passes
(operation extraction from the Query and Mutation root blocks, then type
definition extraction) are modelled as explicit state machines folded over
the line list, mirroring the source statement by statement.
-/

set_option maxRecDepth 4096
set_option maxHeartbeats 1000000

namespace GqlViewer

/-- A source line: a list of characters (never containing a newline). -/
abbrev Line := List Char

/-- The whitespace class used by JavaScript for `trim` and for the regex
class used in the parser (restricted to the ASCII whitespace characters,
the only ones that can occur in the inputs considered here). -/
def isJsSpace (c : Char) : Bool :=
  c = ' ' || c = '\t' || c = '\n' || c = '\r' || c = '\x0b' || c = '\x0c'

/-- A word character in the sense of the regex class used by the source
(letters, digits, underscore). -/
def isWordChar (c : Char) : Bool :=
  c.isAlphanum || c = '_'

/-- Remove leading whitespace (the leading half of JavaScript trim). -/
def ltrim (l : Line) : Line := l.dropWhile isJsSpace

/-- Remove trailing whitespace (the trailing half of JavaScript trim). -/
def rtrim : Line → Line
  | [] => []
  | c :: cs =>
    let r := rtrim cs
    if r.isEmpty && isJsSpace c then [] else c :: r

/-- JavaScript String.prototype.trim on a line. -/
def trimL (l : Line) : Line := rtrim (ltrim l)

/-- JavaScript String.prototype.includes for a single character. -/
def includesC (l : Line) (c : Char) : Bool := decide (c ∈ l)

/-- JavaScript String.prototype.startsWith on lines. -/
def startsWithL : Line → Line → Bool
  | _, [] => true
  | [], _ :: _ => false
  | c :: cs, d :: ds => c == d && startsWithL cs ds

/-- JavaScript String.prototype.endsWith on lines. -/
def endsWithL (l p : Line) : Bool := startsWithL l.reverse p.reverse

/-- JavaScript String.prototype.split with separator a newline. -/
def splitLinesAux : List Char → Line → List Line
  | [], acc => [acc.reverse]
  | c :: cs, acc =>
    if c = '\n' then acc.reverse :: splitLinesAux cs []
    else splitLinesAux cs (c :: acc)

/-- Split schema text into its lines, as `schema.split` on a newline does. -/
def splitLines (s : List Char) : List Line := splitLinesAux s []

/-- The three-character triple-quote marker. -/
def tripleQuote : Line := ['\"', '\"', '\"']

/-- The hash comment marker. -/
def hashMark : Line := ['#']

/-- Strip a leading triple quote or hash, then a trailing triple quote, then
trim: the replace chain applied to description lines in both passes. -/
def stripDescMarkers (t : Line) : Line :=
  let a := if startsWithL t tripleQuote then t.drop 3
           else if startsWithL t hashMark then t.drop 1
           else t
  let b := if endsWithL a tripleQuote then a.take (a.length - 3) else a
  trimL b

/-- The description attachment used by both passes: trim, and use the result
only when it is non-empty (the JavaScript or-with-undefined idiom). -/
def descOf (cd : Line) : Option Line :=
  let d := trimL cd
  if d.isEmpty then none else some d

/-- One parsed field argument. -/
structure Param where
  name : Line
  type : Line
  required : Bool
deriving DecidableEq

/-- Which root block an operation came from. -/
inductive OpKind
  | query
  | mutation
deriving DecidableEq

/-- An extracted operation (interface GraphQLOperation in the source).
An absent optional field of the TypeScript object is `none`. -/
structure GraphQLOperation where
  name : Line
  type : OpKind
  description : Option Line
  parameters : Option (List Param)
  returnType : Line
  content : Line
deriving DecidableEq

/-- The kind of a type definition. -/
inductive TypeKind
  | type
  | interface
  | enum
  | scalar
  | union
  | input
deriving DecidableEq

/-- An extracted type definition (interface GraphQLType in the source). -/
structure GraphQLType where
  name : Line
  kind : TypeKind
  description : Option Line
  content : Line
deriving DecidableEq

/-- The optional parenthesised argument group of the field regex: when the
text starts with an opening parenthesis, capture up to the first closing
parenthesis; a missing closing parenthesis makes the whole field match fail
(returned as `none`), otherwise the group is absent and capture is empty. -/
def parseParens : Line → Option (Line × Line)
  | '(' :: r =>
    (match r.dropWhile (fun c => !(c = ')')) with
     | ')' :: r2 => some ('(' :: (r.takeWhile (fun c => !(c = ')')) ++ [')']), r2)
     | _ => none)
  | s => some ([], s)

/-- Whether the remainder after a candidate return-type capture lets the
field regex complete: optional whitespace then an opening brace, or
optional whitespace then end of line. -/
def tailOk (u : Line) : Bool :=
  match u.dropWhile isJsSpace with
  | [] => true
  | c :: _ => c = '\x7b'

/-- The lazy one-or-more capture of the return type: the shortest non-empty
prefix whose remainder satisfies `tailOk`. -/
def lazyG3 : Line → Option Line
  | [] => none
  | c :: cs =>
    if tailOk cs then some [c]
    else match lazyG3 cs with
         | some g => some (c :: g)
         | none => none

/-- The field regex of the operation pass applied to a trimmed line:
an identifier, an optional parenthesised argument list, a colon, then a
lazily captured return type terminated by an opening brace or end of line.
Returns the identifier, the raw argument group (with parentheses, empty if
absent) and the raw return-type capture. -/
def fieldMatch (t : Line) : Option (Line × Line × Line) :=
  let s1 := t.dropWhile isJsSpace
  let name := s1.takeWhile isWordChar
  if name.isEmpty then none else
  match parseParens ((s1.dropWhile isWordChar).dropWhile isJsSpace) with
  | none => none
  | some (params, after) =>
    match after.dropWhile isJsSpace with
    | ':' :: r3 =>
      let w := r3.takeWhile isJsSpace
      let rest := r3.dropWhile isJsSpace
      (match rest with
       | [] =>
         (match w.reverse with
          | [] => none
          | c :: _ => some (name, params, [c]))
       | _ => (lazyG3 rest).map (fun g => (name, params, g)))
    | _ => none

/-- Remove every parenthesis character (the replace applied to the argument
group before scanning it for name-colon-type pairs). -/
def stripParens (l : Line) : Line :=
  l.filter (fun c => !(c = '(') && !(c = ')'))

/-- The repeated global match of name-colon-type argument pairs: scan left
to right; at a word character try to read an identifier, optional spaces, a
colon, the greedy whitespace run and then a non-empty comma-free value.
When the run is followed by a non-comma character the value is the maximal
comma-free run from there; when only a comma or the end follows, the
greedy whitespace gives one character back and the value capture matches
that single whitespace character instead (so a whitespace-only value still
yields a pair), and only when there is no whitespace at all does the
attempt fail and resume one character further on. On success the scan
resumes after the value. The first argument is fuel that makes the
recursion structural: every recursive call passes a strictly shorter list
together with one less unit of fuel, so a scan started with the list's
length as fuel never exhausts it. -/
def paramScanAux : Nat → Line → List (Line × Line)
  | 0, _ => []
  | _ + 1, [] => []
  | fuel + 1, c :: cs =>
    if isWordChar c then
      match (cs.dropWhile isWordChar).dropWhile isJsSpace with
      | ':' :: r3 =>
        let r4 := r3.dropWhile isJsSpace
        let v := r4.takeWhile (fun x => !(x = ','))
        if v.isEmpty then
          match (r3.takeWhile isJsSpace).reverse with
          | [] => paramScanAux fuel cs
          | cw :: _ => (c :: cs.takeWhile isWordChar, [cw]) :: paramScanAux fuel r4
        else (c :: cs.takeWhile isWordChar, v)
             :: paramScanAux fuel (r4.dropWhile (fun x => !(x = ',')))
      | _ => paramScanAux fuel cs
    else paramScanAux fuel cs

/-- The argument-pair scan over a whole cleaned argument string. -/
def paramScan (l : Line) : List (Line × Line) := paramScanAux l.length l

/-- Build the parameter list from the raw argument group: no group means no
scan; otherwise strip parentheses, scan for pairs, trim each value, record
whether it contains a non-null marker, and store it with the markers
removed and trimmed. -/
def parseParameters (paramsString : Line) : List Param :=
  if paramsString.isEmpty then []
  else (paramScan (stripParens paramsString)).map (fun m =>
    let paramType := trimL m.2
    { name := m.1,
      type := trimL (paramType.filter (fun c => !(c = '!'))),
      required := includesC paramType '!' })

/-- The replace that removes an optional whitespace run, an opening brace
and everything after it from a captured return type. -/
def stripBraceTail (l : Line) : Line :=
  if includesC l '\x7b' then rtrim (l.takeWhile (fun c => !(c = '\x7b'))) else l

/-- The mutable locals of the operation-extraction loop. -/
structure OpScanState where
  inTypeBlock : Bool
  braceCount : Int
  currentDescription : Line
  descriptionLines : List Line
  inDescription : Bool
  typeOps : List GraphQLOperation
deriving DecidableEq

/-- Initial state of the operation-extraction loop. -/
def initOpScanState : OpScanState :=
  { inTypeBlock := false, braceCount := 0, currentDescription := [],
    descriptionLines := [], inDescription := false, typeOps := [] }

/-- Detection of the start of the root type block: the trimmed line is
exactly the header, or extends it by a space or by an opening brace. -/
def isOpHeader (typeName : Line) (trimmed : Line) : Bool :=
  trimmed == ("type ".data ++ typeName)
  || startsWithL trimmed ("type ".data ++ typeName ++ " ".data)
  || startsWithL trimmed ("type ".data ++ typeName ++ "\x7b".data)

/-- The brace counter after a line inside the block: incremented when the
line contains an opening brace, decremented when it contains a closing
brace (by presence, exactly as the source's includes tests do). -/
def opBrace (st : OpScanState) (line : Line) : Int :=
  st.braceCount + (if includesC line '\x7b' then 1 else 0)
                - (if includesC line '\x7d' then 1 else 0)

/-- A description line: the trimmed line starts with a triple quote or a
hash. -/
def isDescLine (trimmed : Line) : Bool :=
  startsWithL trimmed tripleQuote || startsWithL trimmed hashMark

/-- The pending description after the finalization check: when a multi-line
description ends at a non-description line inside the block, the buffered
lines are joined with spaces and trimmed; otherwise it is unchanged. -/
def opCd (st : OpScanState) (trimmed : Line) (bc : Int) : Line :=
  if st.inDescription ∧ isDescLine trimmed = false ∧ bc > 0
  then trimL (List.intercalate [' '] st.descriptionLines)
  else st.currentDescription

/-- The in-description flag after the finalization check. -/
def opInD (st : OpScanState) (trimmed : Line) (bc : Int) : Bool :=
  if st.inDescription ∧ isDescLine trimmed = false ∧ bc > 0
  then false else st.inDescription

/-- Handling of a description line inside the block: buffer its stripped
text when non-empty, and close the description again immediately when the
line is a single-line triple-quoted description. -/
def opDescStep (st : OpScanState) (trimmed : Line) (bc : Int) : OpScanState :=
  { st with braceCount := bc,
            descriptionLines := if (stripDescMarkers trimmed).isEmpty then st.descriptionLines
                                else st.descriptionLines ++ [stripDescMarkers trimmed],
            inDescription := !(endsWithL trimmed tripleQuote
                               && startsWithL trimmed tripleQuote
                               && decide (trimmed.length > 3)) }

/-- Build the operation pushed for a matched field line. -/
def mkOperation (operationType : OpKind) (cd trimmed nm ps rr : Line) : GraphQLOperation :=
  { name := nm,
    type := operationType,
    description := descOf cd,
    parameters := if (parseParameters ps).length > 0 then some (parseParameters ps) else none,
    returnType := trimL ((trimL (stripBraceTail (trimL rr))).filter
                          (fun c => !(c = '!') && !(c = ','))),
    content := trimmed }

/-- The field-parsing part of an in-block iteration: attempt the field
regex when at positive depth on a non-description line, pushing the parsed
operation on success and otherwise discarding a pending description that a
non-field line interrupts. -/
def opFieldStep (operationType : OpKind) (st : OpScanState) (trimmed : Line) (bc : Int) :
    OpScanState :=
  if bc > 0 ∧ isDescLine trimmed = false then
    match fieldMatch trimmed with
    | some (nm, ps, rr) =>
      { st with braceCount := bc, currentDescription := [], descriptionLines := [],
                inDescription := opInD st trimmed bc,
                typeOps := st.typeOps ++ [mkOperation operationType (opCd st trimmed bc) trimmed nm ps rr] }
    | none =>
      if ¬ (opCd st trimmed bc).isEmpty ∧ startsWithL trimmed hashMark = false
         ∧ startsWithL trimmed tripleQuote = false then
        { st with braceCount := bc, currentDescription := [], descriptionLines := [],
                  inDescription := opInD st trimmed bc }
      else
        { st with braceCount := bc, currentDescription := opCd st trimmed bc,
                  inDescription := opInD st trimmed bc }
  else
    { st with braceCount := bc, currentDescription := opCd st trimmed bc,
              inDescription := opInD st trimmed bc }

/-- One iteration of the operation-extraction loop on one line. The second
component is true when the source loop breaks after this line. -/
def opStep (typeName : Line) (operationType : OpKind) (st : OpScanState) (line : Line) :
    OpScanState × Bool :=
  if (trimL line).isEmpty then
    if st.inDescription then (st, false)
    else ({ st with currentDescription := [], descriptionLines := [] }, false)
  else if isOpHeader typeName (trimL line) then
    ({ st with inTypeBlock := true,
               braceCount := if includesC line '\x7b' then 1 else 0,
               currentDescription := [], descriptionLines := [],
               inDescription := false }, false)
  else if st.inTypeBlock then
    if isDescLine (trimL line) ∧ opBrace st line > 0 then
      (opDescStep st (trimL line) (opBrace st line), false)
    else if opBrace st line = 0 ∧ includesC (trimL line) '\x7d' then
      ({ opFieldStep operationType st (trimL line) (opBrace st line) with inTypeBlock := false },
       true)
    else (opFieldStep operationType st (trimL line) (opBrace st line), false)
  else (st, false)

/-- The operation-extraction loop over the remaining lines, stopping early
when an iteration breaks. -/
def opLoop (typeName : Line) (operationType : OpKind) :
    OpScanState → List Line → List GraphQLOperation
  | st, [] => st.typeOps
  | st, l :: ls =>
    let r := opStep typeName operationType st l
    if r.2 then r.1.typeOps else opLoop typeName operationType r.1 ls

/-- parseOperationsFromType of the source on pre-split lines. -/
def parseOperationsFromType (lines : List Line) (typeName : Line)
    (operationType : OpKind) : List GraphQLOperation :=
  opLoop typeName operationType initOpScanState lines

/-- The mutable locals of the type-definition pass. -/
structure TypeScanState where
  currentType : Option GraphQLType
  currentDescription : Line
  braceCount : Int
  inType : Bool
  typeContent : List Line
  typeDefs : List GraphQLType
deriving DecidableEq

/-- Initial state of the type-definition pass. -/
def initTypeScanState : TypeScanState :=
  { currentType := none, currentDescription := [], braceCount := 0,
    inType := false, typeContent := [], typeDefs := [] }

/-- The outer keyword test of the type-definition pass: the trimmed line
starts with one of the six definition keywords followed by a space. -/
def isTypeKwLine (trimmed : Line) : Bool :=
  startsWithL trimmed ("type ".data) || startsWithL trimmed ("interface ".data)
  || startsWithL trimmed ("enum ".data) || startsWithL trimmed ("scalar ".data)
  || startsWithL trimmed ("union ".data) || startsWithL trimmed ("input ".data)

/-- Match one alternative of the header regex: the keyword itself, at least
one whitespace character, then a non-empty identifier. -/
def kwNameMatch (kw : Line) (trimmed : Line) : Option Line :=
  if startsWithL trimmed kw then
    let r := trimmed.drop kw.length
    if (r.takeWhile isJsSpace).isEmpty then none
    else
      let nm := (r.dropWhile isJsSpace).takeWhile isWordChar
      if nm.isEmpty then none else some nm
  else none

/-- The header regex of the type-definition pass: the six keyword
alternatives tried in source order. -/
def typeHeaderMatch (trimmed : Line) : Option (TypeKind × Line) :=
  match kwNameMatch ("type".data) trimmed with
  | some nm => some (TypeKind.type, nm)
  | none =>
  match kwNameMatch ("interface".data) trimmed with
  | some nm => some (TypeKind.interface, nm)
  | none =>
  match kwNameMatch ("enum".data) trimmed with
  | some nm => some (TypeKind.enum, nm)
  | none =>
  match kwNameMatch ("scalar".data) trimmed with
  | some nm => some (TypeKind.scalar, nm)
  | none =>
  match kwNameMatch ("union".data) trimmed with
  | some nm => some (TypeKind.union, nm)
  | none =>
  match kwNameMatch ("input".data) trimmed with
  | some nm => some (TypeKind.input, nm)
  | none => none

/-- The brace contribution of one line in the type-definition pass: one for
a contained opening brace, minus one for a contained closing brace. -/
def tBrace (line : Line) : Int :=
  (if includesC line '\x7b' then 1 else 0) - (if includesC line '\x7d' then 1 else 0)

/-- Finalize a still-open definition: join its collected lines with
newlines and append it to the result list. -/
def flushCurrent (st : TypeScanState) : List GraphQLType :=
  match st.currentType with
  | some ct => st.typeDefs ++ [{ ct with content := List.intercalate ['\n'] st.typeContent }]
  | none => st.typeDefs

/-- Open a new definition at a matched non-reserved header line. -/
def openTypeDef (st : TypeScanState) (line : Line) (kind : TypeKind) (typeName : Line) :
    TypeScanState :=
  { currentType := some { name := typeName, kind := kind,
                          description := descOf st.currentDescription,
                          content := [] },
    currentDescription := [],
    braceCount := tBrace line,
    inType := true,
    typeContent := [line],
    typeDefs := flushCurrent st }

/-- A body line of an open definition: collect it, update the depth, and
close the definition when the depth is back to zero and the line contains a
closing brace or the kind needs no body. -/
def typeBodyStep (st : TypeScanState) (ct : GraphQLType) (line : Line) : TypeScanState :=
  if st.braceCount + tBrace line = 0
     ∧ (includesC line '\x7d' ∨ ct.kind = TypeKind.scalar ∨ ct.kind = TypeKind.union) then
    { st with currentType := none, typeContent := [], inType := false,
              braceCount := st.braceCount + tBrace line,
              typeDefs := st.typeDefs
                ++ [{ ct with content := List.intercalate ['\n'] (st.typeContent ++ [line]) }] }
  else
    { st with typeContent := st.typeContent ++ [line],
              braceCount := st.braceCount + tBrace line }

/-- One iteration of the type-definition pass on one line. -/
def typeStep (st : TypeScanState) (line : Line) : TypeScanState :=
  if (trimL line).isEmpty then st
  else if (startsWithL (trimL line) tripleQuote || startsWithL (trimL line) hashMark)
          ∧ st.inType = false then
    { st with currentDescription :=
        st.currentDescription ++ stripDescMarkers (trimL line) ++ [' '] }
  else if isTypeKwLine (trimL line) then
    match typeHeaderMatch (trimL line) with
    | some (kind, typeName) =>
      if typeName = ("Query".data) ∨ typeName = ("Mutation".data)
         ∨ typeName = ("Subscription".data) then st
      else openTypeDef st line kind typeName
    | none => st
  else
    match st.currentType with
    | some ct =>
      if st.inType then typeBodyStep st ct line
      else { st with currentDescription := [] }
    | none => { st with currentDescription := [] }

/-- Fold of the type-definition pass over all lines. -/
def typeLoop : TypeScanState → List Line → TypeScanState
  | st, [] => st
  | st, l :: ls => typeLoop (typeStep st l) ls

/-- The type-definition pass: run over all lines and finalize any still
open definition at end of input. -/
def extractTypeDefs (lines : List Line) : List GraphQLType :=
  let st := typeLoop initTypeScanState lines
  match st.currentType with
  | some ct => st.typeDefs ++ [{ ct with content := List.intercalate ['\n'] st.typeContent }]
  | none => st.typeDefs

/-- The whole extraction of the useMemo block: a null-like or empty schema
yields two empty lists, otherwise the Query pass, the Mutation pass and the
type-definition pass run over the split lines. -/
def gqlParse (schema : Option String) : List GraphQLOperation × List GraphQLType :=
  match schema with
  | none => ([], [])
  | some s =>
    if s = "" then ([], [])
    else
      let lines := splitLines s.data
      (parseOperationsFromType lines ("Query".data) OpKind.query
        ++ parseOperationsFromType lines ("Mutation".data) OpKind.mutation,
       extractTypeDefs lines)

/-! Basic lemmas about the trimming helpers. -/

theorem mem_of_mem_dropWhile {x : Char} {p : Char → Bool} {l : Line}
    (h : x ∈ l.dropWhile p) : x ∈ l :=
  List.Sublist.mem h (List.dropWhile_sublist p)

theorem mem_dropWhile_of {x : Char} {p : Char → Bool} {l : Line}
    (hx : x ∈ l) (hp : p x = false) : x ∈ l.dropWhile p := by
  induction l with
  | nil => cases hx
  | cons a as ih =>
    rw [List.dropWhile_cons]
    by_cases ha : p a
    · rcases List.mem_cons.mp hx with rfl | hmem
      · rw [hp] at ha; cases ha
      · simpa [ha] using ih hmem
    · simpa [ha] using hx

theorem mem_of_mem_rtrim {x : Char} {l : Line} (h : x ∈ rtrim l) : x ∈ l := by
  induction l with
  | nil => simpa [rtrim] using h
  | cons c cs ih =>
    simp only [rtrim] at h
    split at h
    · cases h
    · rcases List.mem_cons.mp h with rfl | hmem
      · exact List.mem_cons_self _ _
      · exact List.mem_cons_of_mem _ (ih hmem)

theorem mem_rtrim_of {x : Char} {l : Line}
    (hx : x ∈ l) (hp : isJsSpace x = false) : x ∈ rtrim l := by
  induction l with
  | nil => cases hx
  | cons c cs ih =>
    simp only [rtrim]
    split
    · rename_i hcond
      rw [Bool.and_eq_true, List.isEmpty_iff] at hcond
      exfalso
      rcases List.mem_cons.mp hx with rfl | hmem
      · rw [hp] at hcond; exact Bool.false_ne_true hcond.2
      · have hr := ih hmem
        rw [hcond.1] at hr; cases hr
    · rcases List.mem_cons.mp hx with rfl | hmem
      · exact List.mem_cons_self _ _
      · exact List.mem_cons_of_mem _ (ih hmem)

theorem rtrim_idem (l : Line) : rtrim (rtrim l) = rtrim l := by
  induction l with
  | nil => simp [rtrim]
  | cons c cs ih =>
    simp only [rtrim]
    split
    · simp [rtrim]
    · rename_i hcond
      simp only [rtrim, ih]
      rw [if_neg hcond]

theorem rtrim_cons_shape (c : Char) (cs : Line) :
    rtrim (c :: cs) = [] ∨ ∃ r, rtrim (c :: cs) = c :: r := by
  simp only [rtrim]
  split
  · exact Or.inl rfl
  · exact Or.inr ⟨rtrim cs, rfl⟩

theorem ltrim_head (l : Line) :
    ltrim l = [] ∨ ∃ c r, ltrim l = c :: r ∧ isJsSpace c = false := by
  induction l with
  | nil => exact Or.inl rfl
  | cons a as ih =>
    by_cases ha : isJsSpace a
    · simpa [ltrim, List.dropWhile_cons, ha] using ih
    · exact Or.inr ⟨a, as, by simp [ltrim, List.dropWhile_cons, ha],
        by simpa using ha⟩

theorem ltrim_of_head {c : Char} (r : Line) (h : isJsSpace c = false) :
    ltrim (c :: r) = c :: r := by
  simp [ltrim, List.dropWhile_cons, h]

theorem trimL_idem (l : Line) : trimL (trimL l) = trimL l := by
  unfold trimL
  rcases ltrim_head l with h | ⟨c, r, h, hc⟩
  · rw [h]; rfl
  · rw [h]
    rcases rtrim_cons_shape c r with h2 | ⟨r2, h2⟩
    · rw [h2]; rfl
    · rw [h2, ltrim_of_head r2 hc, ← h2, rtrim_idem]

theorem mem_of_mem_trimL {x : Char} {l : Line} (h : x ∈ trimL l) : x ∈ l :=
  mem_of_mem_dropWhile (mem_of_mem_rtrim h)

theorem mem_trimL_of {x : Char} {l : Line}
    (hx : x ∈ l) (hp : isJsSpace x = false) : x ∈ trimL l :=
  mem_rtrim_of (mem_dropWhile_of hx hp) hp

theorem includesC_trimL (l : Line) (c : Char) (hc : isJsSpace c = false) :
    includesC (trimL l) c = includesC l c := by
  unfold includesC
  rw [decide_eq_decide]
  exact ⟨mem_of_mem_trimL, fun h => mem_trimL_of h hc⟩

theorem descOf_good (cd : Line) :
    descOf cd = none ∨ ∃ d, descOf cd = some d ∧ d ≠ [] ∧ trimL d = d := by
  simp only [descOf]
  split
  · exact Or.inl rfl
  · rename_i h
    exact Or.inr ⟨trimL cd, rfl, by simpa [List.isEmpty_iff] using h, trimL_idem cd⟩

/-! Structural lemmas about the operation pass. -/

theorem opFieldStep_typeOps (ot : OpKind) (st : OpScanState) (trimmed : Line) (bc : Int) :
    (opFieldStep ot st trimmed bc).typeOps = st.typeOps ∨
    ∃ nm ps rr, (opFieldStep ot st trimmed bc).typeOps
      = st.typeOps ++ [mkOperation ot (opCd st trimmed bc) trimmed nm ps rr] := by
  unfold opFieldStep
  split
  · split
    · rename_i nm ps rr heq
      exact Or.inr ⟨nm, ps, rr, rfl⟩
    · split
      · exact Or.inl rfl
      · exact Or.inl rfl
  · exact Or.inl rfl

theorem opStep_typeOps (tn : Line) (ot : OpKind) (st : OpScanState) (l : Line) :
    (opStep tn ot st l).1.typeOps = st.typeOps ∨
    ∃ op : GraphQLOperation, (opStep tn ot st l).1.typeOps = st.typeOps ++ [op] ∧
      op.content = trimL l ∧
      (∃ rt : Line, op.returnType
        = trimL (List.filter (fun c => !(c = '!') && !(c = ',')) rt)) ∧
      (∃ cd : Line, op.description = descOf cd) := by
  unfold opStep
  split
  · split
    · exact Or.inl rfl
    · exact Or.inl rfl
  · split
    · exact Or.inl rfl
    · split
      · split
        · exact Or.inl rfl
        · split
          · rcases opFieldStep_typeOps ot st (trimL l) (opBrace st l) with h | ⟨nm, ps, rr, h⟩
            · exact Or.inl h
            · exact Or.inr ⟨_, h, rfl, ⟨_, rfl⟩, ⟨_, rfl⟩⟩
          · rcases opFieldStep_typeOps ot st (trimL l) (opBrace st l) with h | ⟨nm, ps, rr, h⟩
            · exact Or.inl h
            · exact Or.inr ⟨_, h, rfl, ⟨_, rfl⟩, ⟨_, rfl⟩⟩
      · exact Or.inl rfl

/-- Everything the loop can push: its content is the trim of a processed
line, its stored return type has been through the marker-removing filter,
and its description went through the trim-or-drop attachment. -/
def opPushed (ls : List Line) (op : GraphQLOperation) : Prop :=
  (∃ l ∈ ls, op.content = trimL l) ∧
  (∃ rt : Line, op.returnType = trimL (List.filter (fun c => !(c = '!') && !(c = ',')) rt)) ∧
  (∃ cd : Line, op.description = descOf cd)

theorem opPushed_cons {ls : List Line} {l : Line} {op : GraphQLOperation}
    (h : opPushed ls op) : opPushed (l :: ls) op := by
  obtain ⟨⟨l0, hl0, hc⟩, h2, h3⟩ := h
  exact ⟨⟨l0, List.mem_cons_of_mem _ hl0, hc⟩, h2, h3⟩

theorem opLoop_sound (tn : Line) (ot : OpKind) :
    ∀ (ls : List Line) (st : OpScanState) (op : GraphQLOperation),
      op ∈ opLoop tn ot st ls → op ∈ st.typeOps ∨ opPushed ls op := by
  intro ls
  induction ls with
  | nil => intro st op h; exact Or.inl h
  | cons l ls ih =>
    intro st op h
    simp only [opLoop] at h
    split at h
    · rcases opStep_typeOps tn ot st l with he | ⟨op0, he, hc, hr, hd⟩
      · rw [he] at h; exact Or.inl h
      · rw [he] at h
        rcases List.mem_append.mp h with h1 | h1
        · exact Or.inl h1
        · rw [List.mem_singleton] at h1
          subst h1
          exact Or.inr ⟨⟨l, List.mem_cons_self _ _, hc⟩, hr, hd⟩
    · rcases ih _ op h with h1 | h1
      · rcases opStep_typeOps tn ot st l with he | ⟨op0, he, hc, hr, hd⟩
        · rw [he] at h1; exact Or.inl h1
        · rw [he] at h1
          rcases List.mem_append.mp h1 with h2 | h2
          · exact Or.inl h2
          · rw [List.mem_singleton] at h2
            subst h2
            exact Or.inr ⟨⟨l, List.mem_cons_self _ _, hc⟩, hr, hd⟩
      · exact Or.inr (opPushed_cons h1)

theorem gqlParse_some_fst (str : String) (hne : ¬ str = "") :
    (gqlParse (some str)).1
      = parseOperationsFromType (splitLines str.data) ("Query".data) OpKind.query
        ++ parseOperationsFromType (splitLines str.data) ("Mutation".data) OpKind.mutation := by
  simp only [gqlParse, if_neg hne]

theorem gqlParse_some_snd (str : String) (hne : ¬ str = "") :
    (gqlParse (some str)).2 = extractTypeDefs (splitLines str.data) := by
  simp only [gqlParse, if_neg hne]

theorem gqlParse_ops_sound (str : String) (op : GraphQLOperation)
    (h : op ∈ (gqlParse (some str)).1) : opPushed (splitLines str.data) op := by
  by_cases hne : str = ""
  · subst hne; simp [gqlParse] at h
  · rw [gqlParse_some_fst str hne] at h
    rcases List.mem_append.mp h with h1 | h1
    · rcases opLoop_sound _ _ _ _ _ h1 with h2 | h2
      · cases h2
      · exact h2
    · rcases opLoop_sound _ _ _ _ _ h1 with h2 | h2
      · cases h2
      · exact h2

/-! Structural lemmas about the type-definition pass. -/

/-- The invariant of every produced type definition: the reserved root
names never occur, and the description is either absent or a non-empty
trimmed text. -/
def goodTD (t : GraphQLType) : Prop :=
  t.name ≠ ("Query".data) ∧ t.name ≠ ("Mutation".data) ∧ t.name ≠ ("Subscription".data) ∧
  (t.description = none ∨ ∃ d, t.description = some d ∧ d ≠ [] ∧ trimL d = d)

theorem typeBodyStep_good (st : TypeScanState) (ct : GraphQLType) (l : Line)
    (h1 : ∀ t ∈ st.typeDefs, goodTD t)
    (h2 : ∀ t, st.currentType = some t → goodTD t)
    (hg : goodTD ct) :
    (∀ t ∈ (typeBodyStep st ct l).typeDefs, goodTD t) ∧
    (∀ t, (typeBodyStep st ct l).currentType = some t → goodTD t) := by
  unfold typeBodyStep
  split
  · constructor
    · intro t ht
      rcases List.mem_append.mp ht with h3 | h3
      · exact h1 t h3
      · rw [List.mem_singleton] at h3
        subst h3
        exact hg
    · intro t ht
      simp at ht
  · exact ⟨h1, h2⟩

theorem typeStep_good (st : TypeScanState) (l : Line)
    (h1 : ∀ t ∈ st.typeDefs, goodTD t)
    (h2 : ∀ t, st.currentType = some t → goodTD t) :
    (∀ t ∈ (typeStep st l).typeDefs, goodTD t) ∧
    (∀ t, (typeStep st l).currentType = some t → goodTD t) := by
  cases hct : st.currentType with
  | none =>
    unfold typeStep
    split
    · exact ⟨h1, h2⟩
    split
    · exact ⟨h1, h2⟩
    split
    · split
      · split
        · exact ⟨h1, h2⟩
        · rename_i kind typeName heq hres
          constructor
          · intro t ht
            unfold openTypeDef flushCurrent at ht
            rw [hct] at ht
            exact h1 t ht
          · intro t ht
            unfold openTypeDef at ht
            injection ht with ht
            subst ht
            push_neg at hres
            exact ⟨hres.1, hres.2.1, hres.2.2, descOf_good _⟩
      · exact ⟨h1, h2⟩
    · simp only [hct]
      exact ⟨h1, fun t ht => by simp at ht⟩
  | some ct =>
    have hg : goodTD ct := h2 ct hct
    unfold typeStep
    split
    · exact ⟨h1, h2⟩
    split
    · exact ⟨h1, h2⟩
    split
    · split
      · split
        · exact ⟨h1, h2⟩
        · rename_i kind typeName heq hres
          constructor
          · intro t ht
            unfold openTypeDef flushCurrent at ht
            rw [hct] at ht
            rcases List.mem_append.mp ht with h3 | h3
            · exact h1 t h3
            · rw [List.mem_singleton] at h3
              subst h3
              exact hg
          · intro t ht
            unfold openTypeDef at ht
            injection ht with ht
            subst ht
            push_neg at hres
            exact ⟨hres.1, hres.2.1, hres.2.2, descOf_good _⟩
      · exact ⟨h1, h2⟩
    · simp only [hct]
      split
      · exact typeBodyStep_good st ct l h1 h2 hg
      · exact ⟨h1, fun t ht => by injection ht with ht; subst ht; exact hg⟩

theorem typeLoop_good : ∀ (ls : List Line) (st : TypeScanState),
    (∀ t ∈ st.typeDefs, goodTD t) → (∀ t, st.currentType = some t → goodTD t) →
    (∀ t ∈ (typeLoop st ls).typeDefs, goodTD t) ∧
    (∀ t, (typeLoop st ls).currentType = some t → goodTD t) := by
  intro ls
  induction ls with
  | nil => intro st h1 h2; exact ⟨h1, h2⟩
  | cons l ls ih =>
    intro st h1 h2
    have h3 := typeStep_good st l h1 h2
    exact ih _ h3.1 h3.2

theorem gqlParse_types_good (s : Option String) (t : GraphQLType)
    (h : t ∈ (gqlParse s).2) : goodTD t := by
  match s with
  | none => cases h
  | some str =>
    by_cases hne : str = ""
    · subst hne; simp [gqlParse] at h
    · rw [gqlParse_some_snd str hne] at h
      have hl := typeLoop_good (splitLines str.data) initTypeScanState
        (by intro t ht; cases ht)
        (by intro t ht; simp [initTypeScanState] at ht)
      simp only [extractTypeDefs] at h
      rcases hfin : (typeLoop initTypeScanState (splitLines str.data)).currentType
        with _ | ct
      · simp only [hfin] at h
        exact hl.1 t h
      · simp only [hfin] at h
        rcases List.mem_append.mp h with h3 | h3
        · exact hl.1 t h3
        · rw [List.mem_singleton] at h3
          subst h3
          exact hl.2 ct hfin

/-! Further small lemmas used by the claim theorems. -/

theorem opDescStep_braceCount (st : OpScanState) (t : Line) (bc : Int) :
    (opDescStep st t bc).braceCount = bc := rfl

theorem opFieldStep_braceCount (ot : OpKind) (st : OpScanState) (t : Line) (bc : Int) :
    (opFieldStep ot st t bc).braceCount = bc := by
  unfold opFieldStep
  split
  · split
    · rfl
    · split
      · rfl
      · rfl
  · rfl

theorem isOpHeader_nil (tn : Line) : isOpHeader tn [] = false := rfl

theorem isOpHeader_iff (tn trimmed : Line) :
    isOpHeader tn trimmed = true ↔
    (trimmed = ("type ".data ++ tn)
     ∨ startsWithL trimmed ("type ".data ++ tn ++ " ".data) = true
     ∨ startsWithL trimmed ("type ".data ++ tn ++ "\x7b".data) = true) := by
  unfold isOpHeader
  simp only [Bool.or_eq_true, beq_iff_eq]
  exact or_assoc

/-- A state already inside the root block, used to exercise single steps of
the operation loop on concrete lines. -/
def inBlockState : OpScanState := { initOpScanState with inTypeBlock := true }

/-- Following the specification's words for the matching closing brace: a
running depth counting every brace occurrence on each line; the matching
closing brace line is the first line at which the depth returns to zero
and the line contains a closing brace. -/
def specMatchingCloseAux : List Line → Int → Nat → Option Nat
  | [], _, _ => none
  | l :: ls, depth, i =>
    if depth + ((l.count '\x7b' : Int) - (l.count '\x7d' : Int)) = 0
       ∧ includesC l '\x7d' then some i
    else specMatchingCloseAux ls (depth + ((l.count '\x7b' : Int) - (l.count '\x7d' : Int))) (i + 1)

/-- The index of the matching closing brace line of a definition starting
at the first line of the list, counting every brace occurrence. -/
def specMatchingCloseIdx (ls : List Line) : Option Nat :=
  specMatchingCloseAux ls 0 0

/-! The claims. -/

/-- C1: the claim states that a single-line triple-quoted description line
directly above a field attaches as that field's description. The code does
the opposite: the single-line close resets the in-description flag, so the
buffered text is never finalized and the field carries no description,
while the analogous hash-comment description does attach. This theorem
evaluates the code at the failing input (description is absent) and at the
hash-comment control input (description attaches), exhibiting the bug. -/
theorem claimC1_single_line_triple_quote_lost :
    (gqlParse (some "type Query \x7b\n  \"\"\"Get it\"\"\"\n  widget: Widget\n\x7d")).1
      = [{ name := "widget".data, type := OpKind.query, description := none,
           parameters := none, returnType := "Widget".data,
           content := "widget: Widget".data }]
    ∧ (gqlParse (some "type Query \x7b\n  # Get it\n  widget: Widget\n\x7d")).1
      = [{ name := "widget".data, type := OpKind.query,
           description := some ("Get it".data),
           parameters := none, returnType := "Widget".data,
           content := "widget: Widget".data }] :=
  ⟨rfl, rfl⟩

/-- C2 counterexample: the one-line form of the single-field Query block
yields no operation at all, refuting the claim that it yields exactly one
entry: the header detection consumes the whole line and field parsing never
sees it. -/
theorem claimC2_counterexample :
    (gqlParse (some "type Query \x7b foo: Bar \x7d")).1 = [] := rfl

/-- C2 (amended): the multi-line single-field declaration inside the Query
block yields exactly one entry with name foo, kind query, return type Bar
and no parameters field; the literal one-line form yields no operations. -/
theorem claimC2_single_field :
    (gqlParse (some "type Query \x7b\n  foo: Bar\n\x7d")).1
      = [{ name := "foo".data, type := OpKind.query, description := none,
           parameters := none, returnType := "Bar".data,
           content := "foo: Bar".data }]
    ∧ (gqlParse (some "type Query \x7b foo: Bar \x7d")).1 = [] :=
  ⟨rfl, rfl⟩

/-- C3 counterexample: on a line containing two opening braces the depth
increases by one, not two: the counter reacts to the presence of a brace
on the line, not to each occurrence, refuting the claim that the depth
changes by the number of opening braces minus the number of closing
braces. -/
theorem claimC3_counterexample :
    ((opStep ("Query".data) OpKind.query inBlockState ("x: Y \x7b\x7b".data)).1.braceCount = 1)
    ∧ ((opStep ("Query".data) OpKind.query inBlockState ("x: Y \x7b\x7b".data)).1.braceCount
       ≠ inBlockState.braceCount
         + ((("x: Y \x7b\x7b".data).count '\x7b' : Int)
            - (("x: Y \x7b\x7b".data).count '\x7d' : Int))) :=
  ⟨rfl, by decide⟩

/-- C3 (amended): on every non-empty, non-header line processed while
inside the root block, the brace counter changes by one when the line
contains an opening brace and by minus one when it contains a closing
brace, by presence rather than per occurrence. -/
theorem claimC3_brace_by_presence (tn : Line) (ot : OpKind) (st : OpScanState) (l : Line)
    (hin : st.inTypeBlock = true)
    (hne : (trimL l).isEmpty = false)
    (hhd : isOpHeader tn (trimL l) = false) :
    (opStep tn ot st l).1.braceCount
      = st.braceCount + (if includesC l '\x7b' then 1 else 0)
        - (if includesC l '\x7d' then 1 else 0) := by
  have key : (opStep tn ot st l).1.braceCount = opBrace st l := by
    unfold opStep
    rw [if_neg (by simp [hne]), if_neg (by simp [hhd]),
        if_pos (show st.inTypeBlock = true from hin)]
    by_cases hd : isDescLine (trimL l) = true ∧ opBrace st l > 0
    · rw [if_pos hd]
      exact opDescStep_braceCount st (trimL l) (opBrace st l)
    · rw [if_neg hd]
      by_cases hbr : opBrace st l = 0 ∧ includesC (trimL l) '\x7d' = true
      · rw [if_pos hbr]
        exact opFieldStep_braceCount ot st (trimL l) (opBrace st l)
      · rw [if_neg hbr]
        exact opFieldStep_braceCount ot st (trimL l) (opBrace st l)
  exact key

/-- C3 witness: the amended statement applied to a concrete in-block state
and a concrete line containing one closing brace. -/
theorem claimC3_witness :
    (opStep ("Query".data) OpKind.query inBlockState ("  q: W \x7d".data)).1.braceCount
      = inBlockState.braceCount
        + (if includesC ("  q: W \x7d".data) '\x7b' then 1 else 0)
        - (if includesC ("  q: W \x7d".data) '\x7d' then 1 else 0) :=
  claimC3_brace_by_presence ("Query".data) OpKind.query inBlockState ("  q: W \x7d".data)
    rfl rfl rfl

/-- C4 counterexample: for an enum whose declaration line is also its
matching closing brace line (per-occurrence counting closes it at line
index zero), the produced content nevertheless spans two lines, because
the close condition is only ever tested on lines after the opening one;
this refutes the claim that no content extends beyond the definition's own
closing brace. -/
theorem claimC4_counterexample :
    specMatchingCloseIdx (splitLines ("enum Color \x7b RED \x7d\nextra: Int").data) = some 0
    ∧ (gqlParse (some "enum Color \x7b RED \x7d\nextra: Int")).2.map (fun t => t.content)
      = [("enum Color \x7b RED \x7d\nextra: Int").data]
    ∧ (gqlParse (some "enum Color \x7b RED \x7d\nextra: Int")).2.map (fun t => t.content)
      ≠ [("enum Color \x7b RED \x7d").data] :=
  ⟨rfl, rfl, by decide⟩

/-- C4 (amended): every operation's content is exactly one source line,
namely the trim of one of the input lines; a type definition's content
starts at its declaration line but ends only at the first later line at
which the presence-counted depth is zero with a closing brace present (or
body-less kind, or end of input), which can lie beyond the textually
matching closing brace. The second conjunct shows a block closed by its
brace whose trailing junk line is excluded. -/
theorem claimC4_content_spans :
    (∀ (str : String) (op : GraphQLOperation), op ∈ (gqlParse (some str)).1 →
      ∃ l ∈ splitLines str.data, op.content = trimL l)
    ∧ (gqlParse (some "type Foo \x7b\n  x: X\n\x7d\njunk")).2.map (fun t => t.content)
      = [("type Foo \x7b\n  x: X\n\x7d").data] := by
  constructor
  · intro str op h
    exact (gqlParse_ops_sound str op h).1
  · rfl

/-- C4 witness: the universal part applied to a concrete schema and the
operation it produces. -/
theorem claimC4_witness :
    ({ name := "a".data, type := OpKind.query, description := none,
       parameters := none, returnType := "B".data, content := "a: B".data
       : GraphQLOperation } ∈ (gqlParse (some "type Query \x7b\n  a: B\n\x7d")).1)
    ∧ ∃ l ∈ splitLines ("type Query \x7b\n  a: B\n\x7d").data,
        ({ name := "a".data, type := OpKind.query, description := none,
           parameters := none, returnType := "B".data, content := "a: B".data
           : GraphQLOperation }).content = trimL l :=
  ⟨by decide, claimC4_content_spans.1 _ _ (by decide)⟩

/-- C5: no produced type definition is named Query, Mutation or
Subscription, and a Subscription block contributes to neither output
list. -/
theorem claimC5_no_reserved_typedefs :
    (∀ (s : Option String) (t : GraphQLType), t ∈ (gqlParse s).2 →
      t.name ≠ ("Query".data) ∧ t.name ≠ ("Mutation".data)
      ∧ t.name ≠ ("Subscription".data))
    ∧ gqlParse (some "type Subscription \x7b\n  ping: Boolean\n\x7d") = ([], []) := by
  constructor
  · intro s t h
    have hg := gqlParse_types_good s t h
    exact ⟨hg.1, hg.2.1, hg.2.2.1⟩
  · rfl

/-- C5 witness: the universal part applied to a concrete schema and the
type definition it produces. -/
theorem claimC5_witness :
    ({ name := "Foo".data, kind := TypeKind.type, description := none,
       content := ("type Foo \x7b\n\x7d").data : GraphQLType }
       ∈ (gqlParse (some "type Foo \x7b\n\x7d")).2)
    ∧ (({ name := "Foo".data, kind := TypeKind.type, description := none,
          content := ("type Foo \x7b\n\x7d").data : GraphQLType }).name ≠ ("Query".data)
       ∧ ({ name := "Foo".data, kind := TypeKind.type, description := none,
            content := ("type Foo \x7b\n\x7d").data : GraphQLType }).name ≠ ("Mutation".data)
       ∧ ({ name := "Foo".data, kind := TypeKind.type, description := none,
            content := ("type Foo \x7b\n\x7d").data : GraphQLType }).name
          ≠ ("Subscription".data)) :=
  ⟨by decide, claimC5_no_reserved_typedefs.1 (some "type Foo \x7b\n\x7d") _ (by decide)⟩

/-- C6: a null-like schema and an empty schema both yield two empty lists;
the extraction is a total function of its input and raises nothing. -/
theorem claimC6_degenerate_inputs :
    gqlParse none = ([], []) ∧ gqlParse (some "") = ([], []) :=
  ⟨rfl, rfl⟩

/-- C7: every parsed field argument comes from a scanned name-and-value
pair: its required flag is set exactly when the raw value token contains a
non-null marker, and its stored type is the token with the markers removed
and trimmed; the concrete conjuncts run the whole extraction on a required
and on an optional argument, and the last conjunct exercises a
whitespace-only argument value, whose backtracked single-space capture
still yields a parameter with empty stored type and required false. -/
theorem claimC7_parameters :
    (∀ (s : Line) (p : Param), p ∈ parseParameters s →
      ∃ m ∈ paramScan (stripParens s),
        p.name = m.1 ∧ p.required = includesC m.2 '!'
        ∧ p.type = trimL (List.filter (fun c => !(c = '!')) (trimL m.2)))
    ∧ (gqlParse (some "type Query \x7b\n  widget(id: ID!): Widget\n\x7d")).1
      = [{ name := "widget".data, type := OpKind.query, description := none,
           parameters := some [{ name := "id".data, type := "ID".data, required := true }],
           returnType := "Widget".data, content := "widget(id: ID!): Widget".data }]
    ∧ (gqlParse (some "type Query \x7b\n  widget(id: ID): Widget\n\x7d")).1
      = [{ name := "widget".data, type := OpKind.query, description := none,
           parameters := some [{ name := "id".data, type := "ID".data, required := false }],
           returnType := "Widget".data, content := "widget(id: ID): Widget".data }]
    ∧ parseParameters ("(a: )".data)
      = [{ name := "a".data, type := [], required := false }] := by
  refine ⟨?_, rfl, rfl, rfl⟩
  intro s p hp
  unfold parseParameters at hp
  split at hp
  · cases hp
  · rcases List.mem_map.mp hp with ⟨m, hm, hpm⟩
    subst hpm
    exact ⟨m, hm, rfl, includesC_trimL m.2 '!' rfl, rfl⟩

/-- C7 witness: the universal part applied to a concrete argument list and
the parameter it produces. -/
theorem claimC7_witness :
    ({ name := "id".data, type := "ID".data, required := true : Param }
       ∈ parseParameters ("(id: ID!)".data))
    ∧ ∃ m ∈ paramScan (stripParens ("(id: ID!)".data)),
        ({ name := "id".data, type := "ID".data, required := true : Param }).name = m.1
        ∧ ({ name := "id".data, type := "ID".data, required := true : Param }).required
          = includesC m.2 '!'
        ∧ ({ name := "id".data, type := "ID".data, required := true : Param }).type
          = trimL (List.filter (fun c => !(c = '!')) (trimL m.2)) :=
  ⟨by decide, claimC7_parameters.1 ("(id: ID!)".data) _ (by decide)⟩

/-- C8 counterexample: a field whose declared return type is a non-null
list of non-null Bar yields the stored return type with the brackets
retained, refuting the claim that all list decoration characters are
removed. -/
theorem claimC8_counterexample :
    (gqlParse (some "type Query \x7b\n  foos: [Bar!]!\n\x7d")).1.map (fun op => op.returnType)
      = [("[Bar]").data]
    ∧ (gqlParse (some "type Query \x7b\n  foos: [Bar!]!\n\x7d")).1.map (fun op => op.returnType)
      ≠ [("Bar").data] :=
  ⟨rfl, by decide⟩

/-- C8 (amended): every extracted operation's stored return type contains
no exclamation mark and no comma (those characters are removed, then the
result is trimmed); list brackets are retained, as the concrete conjunct
shows. -/
theorem claimC8_return_type_markers :
    (∀ (s : Option String) (op : GraphQLOperation), op ∈ (gqlParse s).1 →
      includesC op.returnType '!' = false ∧ includesC op.returnType ',' = false)
    ∧ (gqlParse (some "type Query \x7b\n  foos: [Bar!]!\n\x7d")).1.map (fun op => op.returnType)
      = [("[Bar]").data] := by
  constructor
  · intro s op h
    match s with
    | none => cases h
    | some str =>
      obtain ⟨_, ⟨rt, hrt⟩, _⟩ := gqlParse_ops_sound str op h
      rw [hrt]
      constructor
      · unfold includesC
        rw [decide_eq_false_iff_not]
        intro hmem
        have h2 := mem_of_mem_trimL hmem
        rw [List.mem_filter] at h2
        simp at h2
      · unfold includesC
        rw [decide_eq_false_iff_not]
        intro hmem
        have h2 := mem_of_mem_trimL hmem
        rw [List.mem_filter] at h2
        simp at h2
  · rfl

/-- C8 witness: the universal part applied to a concrete schema and the
operation it produces. -/
theorem claimC8_witness :
    ({ name := "foos".data, type := OpKind.query, description := none,
       parameters := none, returnType := "[Bar]".data, content := "foos: [Bar!]!".data
       : GraphQLOperation } ∈ (gqlParse (some "type Query \x7b\n  foos: [Bar!]!\n\x7d")).1)
    ∧ (includesC ("[Bar]".data) '!' = false ∧ includesC ("[Bar]".data) ',' = false) :=
  ⟨by decide,
   claimC8_return_type_markers.1 (some "type Query \x7b\n  foos: [Bar!]!\n\x7d")
     { name := "foos".data, type := OpKind.query, description := none,
       parameters := none, returnType := "[Bar]".data, content := "foos: [Bar!]!".data }
     (by decide)⟩

/-- C9: every produced operation and type definition either carries no
description or carries a non-empty description equal to its own trim. -/
theorem claimC9_description_shape :
    (∀ (s : Option String) (op : GraphQLOperation), op ∈ (gqlParse s).1 →
      op.description = none
      ∨ ∃ d, op.description = some d ∧ d ≠ [] ∧ trimL d = d)
    ∧ (∀ (s : Option String) (t : GraphQLType), t ∈ (gqlParse s).2 →
      t.description = none
      ∨ ∃ d, t.description = some d ∧ d ≠ [] ∧ trimL d = d) := by
  constructor
  · intro s op h
    match s with
    | none => cases h
    | some str =>
      obtain ⟨_, _, ⟨cd, hcd⟩⟩ := gqlParse_ops_sound str op h
      rw [hcd]
      exact descOf_good cd
  · intro s t h
    exact (gqlParse_types_good s t h).2.2.2

/-- C9 witness: both universal parts applied to concrete schemas and the
entries they produce, one with an attached description and one without. -/
theorem claimC9_witness :
    (({ name := "f".data, type := OpKind.query, description := some ("d1".data),
        parameters := none, returnType := "X".data, content := "f: X".data
        : GraphQLOperation }).description = none
     ∨ ∃ d, ({ name := "f".data, type := OpKind.query, description := some ("d1".data),
               parameters := none, returnType := "X".data, content := "f: X".data
               : GraphQLOperation }).description = some d ∧ d ≠ [] ∧ trimL d = d)
    ∧ (({ name := "Foo".data, kind := TypeKind.type, description := none,
          content := ("type Foo \x7b\n\x7d").data : GraphQLType }).description = none
       ∨ ∃ d, ({ name := "Foo".data, kind := TypeKind.type, description := none,
                 content := ("type Foo \x7b\n\x7d").data : GraphQLType }).description = some d
              ∧ d ≠ [] ∧ trimL d = d) :=
  ⟨claimC9_description_shape.1 (some "type Query \x7b\n  # d1\n  f: X\n\x7d") _ (by decide),
   claimC9_description_shape.2 (some "type Foo \x7b\n\x7d") _ (by decide)⟩

/-- C10: from outside the root block, the scan enters it exactly on a line
whose trimmed text is the header, or extends the header by a space or by
an opening brace; a type name that merely begins with the root name is not
a header, so its block contributes no operations. -/
theorem claimC10_header_detection :
    (∀ (tn : Line) (ot : OpKind) (st : OpScanState) (l : Line),
      st.inTypeBlock = false →
      ((opStep tn ot st l).1.inTypeBlock = true ↔
        (trimL l = ("type ".data ++ tn)
         ∨ startsWithL (trimL l) ("type ".data ++ tn ++ " ".data) = true
         ∨ startsWithL (trimL l) ("type ".data ++ tn ++ "\x7b".data) = true)))
    ∧ (gqlParse (some "type QueryResult \x7b\n  foo: Bar\n\x7d")).1 = [] := by
  constructor
  · intro tn ot st l hst
    rw [← isOpHeader_iff]
    unfold opStep
    by_cases hemp : (trimL l).isEmpty = true
    · rw [if_pos hemp]
      rw [List.isEmpty_iff] at hemp
      rw [hemp, isOpHeader_nil]
      by_cases hdsc : st.inDescription = true
      · rw [if_pos hdsc]
        simp [hst]
      · rw [if_neg hdsc]
        simp [hst]
    · rw [if_neg hemp]
      by_cases hhd : isOpHeader tn (trimL l) = true
      · rw [if_pos hhd, hhd]
      · rw [if_neg hhd]
        rw [if_neg (show ¬ st.inTypeBlock = true by rw [hst]; exact Bool.false_ne_true)]
        simp [hst, hhd]
  · rfl

/-- C10 witness: the universal part applied to the initial state and a
concrete header line, giving that the scan enters the block there. -/
theorem claimC10_witness :
    (opStep ("Query".data) OpKind.query initOpScanState (("type Query \x7b").data)).1.inTypeBlock
      = true :=
  (claimC10_header_detection.1 ("Query".data) OpKind.query initOpScanState
    (("type Query \x7b").data) rfl).mpr (by decide)

end GqlViewer
